import Mathlib

/-
Verification development for the mailroom core: campaign scheduling
(ScheduleForTime), the session-commit language-change hook (Apply),
broadcast fan-out batching (CreateBroadcastBatches) and batch sending
(SendBroadcastBatch).

Time model: an instant is an integer count of nanoseconds since the Unix
epoch together with a location, modelled as a fixed offset east of UTC in
whole minutes (the Go time.Location used here is applied only through
In/Second/Nanosecond/Truncate/AddDate/Date, and for a fixed-offset
location those operations are exactly the integer computations below;
in particular AddDate(0,0,n) adds n calendar days, which for a
fixed-offset location is n * 24h of absolute time, and
time.Date(Y, M, D, h, 0, 0, 0, loc) with (Y, M, D) taken from an instant
in loc is the start of that instant-in-loc calendar day plus h hours).
-/

def nsPerSec : Int := 1000000000

def nsPerMin : Int := 60 * nsPerSec

def nsPerHour : Int := 60 * nsPerMin

def nsPerDay : Int := 24 * nsPerHour

structure GoTime where
  nsec : Int
  offMin : Int
deriving DecidableEq

/-- Wall-clock nanoseconds of this instant in its location. -/
def GoTime.wallNsec (t : GoTime) : Int := t.nsec + t.offMin * nsPerMin

/-- Go time.In: same instant, location changed. -/
def GoTime.In (t : GoTime) (offMin : Int) : GoTime := ⟨t.nsec, offMin⟩

/-- Go time.Add: add a duration in nanoseconds. -/
def GoTime.Add (t : GoTime) (d : Int) : GoTime := ⟨t.nsec + d, t.offMin⟩

/-- Go time.Truncate for a divisor of one minute: round down to a multiple
of d. Go truncates in absolute time since the year-1 zero time, which sits
on a minute boundary relative to the Unix epoch, so flooring the epoch
count is the same operation. -/
def GoTime.Truncate (t : GoTime) (d : Int) : GoTime := ⟨t.nsec - t.nsec % d, t.offMin⟩

/-- Go time.Before: strict comparison of absolute instants. -/
def GoTime.Before (t u : GoTime) : Bool := t.nsec < u.nsec

/-- Go time.Second: wall-clock seconds within the minute, 0-59. -/
def GoTime.Second (t : GoTime) : Int := t.wallNsec / nsPerSec % 60

/-- Go time.Nanosecond: sub-second nanoseconds, 0 to 999999999. -/
def GoTime.Nanosecond (t : GoTime) : Int := t.wallNsec % nsPerSec

/-- Go time.Hour: wall-clock hour, 0-23. -/
def GoTime.Hour (t : GoTime) : Int := t.wallNsec / nsPerHour % 24

/-- Go time.Minute: wall-clock minutes within the hour, 0-59. -/
def GoTime.Minute (t : GoTime) : Int := t.wallNsec / nsPerMin % 60

/-- The calendar date of this instant in its location, numbered as days
since 1970-01-01. -/
def GoTime.dayIndex (t : GoTime) : Int := t.wallNsec / nsPerDay

/-- Go time.AddDate(0, 0, d) in a fixed-offset location: advance d
calendar days. -/
def GoTime.AddDate (t : GoTime) (d : Int) : GoTime := ⟨t.nsec + d * nsPerDay, t.offMin⟩

/-- Go time.Date(Y, M, D, hour, 0, 0, 0, loc) for a fixed-offset location
loc, where the civil date (Y, M, D) is the calendar day numbered d days
after 1970-01-01: the instant whose wall clock reads that day at the given
hour (out-of-range hours normalize into adjacent days exactly as the
integer arithmetic does). -/
def dateAtHour (d : Int) (hour : Int) (offMin : Int) : GoTime :=
  ⟨d * nsPerDay + hour * nsPerHour - offMin * nsPerMin, offMin⟩

/- Campaign events (src/unnamed/part_003). OffsetUnit is a string in the
source; unrecognized units hit the error branch of the switch. -/

abbrev OffsetUnit := String

def OffsetMinute : OffsetUnit := "M"

def OffsetHour : OffsetUnit := "H"

def OffsetDay : OffsetUnit := "D"

def OffsetWeek : OffsetUnit := "W"

def NilDeliveryHour : Int := -1

structure CampaignEvent where
  Offset : Int
  Unit : OffsetUnit
  DeliveryHour : Int
deriving DecidableEq

/-- The rounding and offset portion of ScheduleForTime: convert to the
campaign timezone, round up to the next whole minute when the seconds or
sub-second component is nonzero, then apply the offset per unit; an
unrecognized unit is an error. Mirrors lines 181-203 of the source. -/
def schedulePreClamp (e : CampaignEvent) (tz : Int) (start : GoTime) : Except String GoTime :=
  let start := start.In tz
  let scheduled :=
    if 0 < start.Second ∨ 0 < start.Nanosecond then
      (start.Add (60 * nsPerSec)).Truncate nsPerMin
    else start
  if e.Unit = OffsetMinute then .ok (scheduled.Add (e.Offset * nsPerMin))
  else if e.Unit = OffsetHour then .ok (scheduled.Add (e.Offset * nsPerHour))
  else if e.Unit = OffsetDay then .ok (scheduled.AddDate e.Offset)
  else if e.Unit = OffsetWeek then .ok (scheduled.AddDate (e.Offset * 7))
  else .error ("unknown offset unit: " ++ e.Unit)

/-- CampaignEvent.ScheduleForTime: the rounded and offset instant, clamped
to the delivery hour when one is set, and returned only when it is not
strictly before now (.ok none is the no-fire result, .ok (some t) a fire
at t). Mirrors lines 181-216 of the source. -/
def ScheduleForTime (e : CampaignEvent) (tz : Int) (now start : GoTime) : Except String (Option GoTime) :=
  match schedulePreClamp e tz start with
  | .error msg => .error msg
  | .ok sched =>
    let sched :=
      if e.DeliveryHour ≠ NilDeliveryHour then
        dateAtHour sched.dayIndex e.DeliveryHour tz
      else sched
    if sched.Before now then .ok none else .ok (some sched)

/-- Following the words of the spec: round up to the next whole minute
when the start instant has a nonzero seconds or sub-second component, and
leave an instant already on a minute boundary unchanged. -/
def specRoundUpToMinute (t : GoTime) : GoTime :=
  if 0 < t.Second ∨ 0 < t.Nanosecond then
    ⟨t.nsec - t.nsec % nsPerMin + nsPerMin, t.offMin⟩
  else t

/-- Following the words of the spec: add the offset in its unit, with day
and week units advancing calendar days (offset days, or offset times 7
days for weeks). -/
def specApplyOffset (e : CampaignEvent) (t : GoTime) : GoTime :=
  if e.Unit = OffsetMinute then t.Add (e.Offset * nsPerMin)
  else if e.Unit = OffsetHour then t.Add (e.Offset * nsPerHour)
  else if e.Unit = OffsetDay then t.AddDate e.Offset
  else t.AddDate (e.Offset * 7)

/- Session-commit language-change hook (src/unnamed/part_000). A flow
event is polymorphic over its kind; the hook only ever handles
contact-language-changed events but its Apply downcasts without checking.
A Go panic (index out of range on an empty list, or a failed type
assertion) is modelled as the none result; some carries the update rows
handed to BulkSQL. -/

inductive FlowEvent where
  | contactLanguageChanged (language : String)
  | other (kind : String)
deriving DecidableEq

structure Session where
  id : Nat
  contactID : Nat
deriving DecidableEq

structure languageUpdate where
  ContactID : Nat
  Language : String
deriving DecidableEq

/-- The language of the final event of a list, when that final event is a
contact-language-changed event. -/
def lastLanguage (es : List FlowEvent) : Option String :=
  match es.getLast? with
  | some (.contactLanguageChanged l) => some l
  | _ => none

/-- CommitLanguageChangesHook.Apply: for each session in the commit map,
take the LAST accumulated event, downcast it to a language-changed event,
and emit one update row pairing the session contact id with that language.
Indexing e[len(e)-1] on an empty list or a failing downcast is a fault
(none). The Go map of sessions is modelled as an association list in
iteration order. -/
def Apply : List (Session × List FlowEvent) → Option (List languageUpdate)
  | [] => some []
  | (s, es) :: rest =>
    match es.getLast? with
    | none => none
    | some ev =>
      match ev with
      | .contactLanguageChanged l =>
        match Apply rest with
        | none => none
        | some more => some (⟨s.contactID, l⟩ :: more)
      | .other _ => none

/- Broadcast fan-out (src/broadcasts/worker.go). Contact ids are modelled
as naturals, URNs as strings. The Go sets and maps are modelled as
duplicate-free association lists in insertion order; iteration order over
a Go map is unspecified, and every property proved below about batch
contents is independent of that order. -/

abbrev ContactID := Nat

abbrev URN := String

def startBatchSize : Nat := 100

inductive QueueName where
  | handlerQ
  | batchQ
deriving DecidableEq

structure BroadcastBatch where
  ContactIDs : List ContactID
  IsLast : Bool
  URNs : List (ContactID × URN)
deriving DecidableEq

structure QueuedTask where
  queue : QueueName
  batch : BroadcastBatch
deriving DecidableEq

/-- Set-union insertion for the contactIDs set: add each element of xs to
acc unless already present. -/
def insertAll (acc : List ContactID) (xs : List ContactID) : List ContactID :=
  xs.foldl (fun a x => if x ∈ a then a else a ++ [x]) acc

/-- Go map assignment m[k] = v: overwrite the value when the key is
present, otherwise append the pair. -/
def mapInsert (m : List (ContactID × URN)) (k : ContactID) (v : URN) : List (ContactID × URN) :=
  if k ∈ m.map Prod.fst then m.map (fun p => if p.1 = k then (p.1, v) else p)
  else m ++ [(k, v)]

/-- Go map lookup m[k]. -/
def mapGet (m : List (ContactID × URN)) (k : ContactID) : Option URN :=
  (m.find? (fun p => p.1 == k)).map Prod.snd

/-- The urnMap loop of CreateBroadcastBatches (lines 86-92): for each
resolved (urn, contact id) pair, a contact already in the contact id set
is moved out of it into the repeated-contacts map, and every pair is
recorded in the urnContacts map. Returns (contact ids, repeated contacts,
urn contacts). -/
def resolveOverlap : List (URN × ContactID) → List ContactID → List (ContactID × URN) →
    List (ContactID × URN) → List ContactID × List (ContactID × URN) × List (ContactID × URN)
  | [], cids, rep, uc => (cids, rep, uc)
  | (u, id) :: rest, cids, rep, uc =>
    if id ∈ cids then
      resolveOverlap rest (cids.erase id) (mapInsert rep id u) (mapInsert uc id u)
    else
      resolveOverlap rest cids rep (mapInsert uc id u)

/-- The batching loop of CreateBroadcastBatches (lines 97-132): fill the
current batch up to startBatchSize contacts, flushing a full batch (not
last, no URN map) whenever another contact arrives; the final batch is
always emitted, carries the leftover contacts followed by the repeated
contacts, is flagged last, and carries the urnContacts map. -/
def buildBatches (rep uc : List (ContactID × URN)) :
    List ContactID → List ContactID → List BroadcastBatch
  | [], cur => [⟨cur ++ rep.map Prod.fst, true, uc⟩]
  | c :: rest, cur =>
    if cur.length = startBatchSize then
      ⟨cur, false, []⟩ :: buildBatches rep uc rest [c]
    else
      buildBatches rep uc rest (cur ++ [c])

/-- CreateBroadcastBatches. External effects are inputs: the group
expansion result arrives as a value plus an error, because the source
assigns both returns and never checks the error (line 54); org assets,
session assets and URN resolution each return early on error; the AddTask
error is logged and discarded by queueBatch (lines 116-119), so it is an
input that the result does not depend on. The result is the list of
enqueued (queue, batch) tasks; the queue is the handler queue exactly when
the contact id set built from explicit and group contacts has at most two
members (lines 78-83), decided before the urn overlap removal. -/
def CreateBroadcastBatches (explicitIDs : List ContactID) (groupContactIDs : List ContactID)
    (groupErr : Option String) (orgAssets : Except String Unit)
    (sessionAssets : Except String Unit) (urnRes : Except String (List (URN × ContactID)))
    (addTaskErr : Option String) : Except String (List QueuedTask) :=
  let contactIDs := insertAll (insertAll [] explicitIDs) groupContactIDs
  match orgAssets with
  | .error e => .error ("error getting org assets: " ++ e)
  | .ok _ =>
  match sessionAssets with
  | .error e => .error ("error getting session assets: " ++ e)
  | .ok _ =>
  match urnRes with
  | .error e => .error ("error getting contact ids for urns: " ++ e)
  | .ok urnMap =>
    let q := if contactIDs.length ≤ 2 then QueueName.handlerQ else QueueName.batchQ
    let r := resolveOverlap urnMap contactIDs [] []
    .ok ((buildBatches r.2.1 r.2.2 r.1 []).map (fun b => ⟨q, b⟩))

/-- Following the words of the claim: the total resolved recipient count,
explicit contacts, group-expanded contacts and address-resolved contacts
together, deduplicated. -/
def totalResolvedRecipients (explicitIDs groupContactIDs : List ContactID)
    (urnMap : List (URN × ContactID)) : Nat :=
  (insertAll (insertAll (insertAll [] explicitIDs) groupContactIDs)
    (urnMap.map Prod.snd)).length

/- SendBroadcastBatch (src/broadcasts/worker.go lines 157-194). The body
is a straight line of fallible steps with early returns; a deferred block
runs on every exit path and invokes MarkBroadcastSent exactly when the
batch is flagged last (the MarkBroadcastSent error itself is logged, not
returned). The trace records the operations invoked, in order. -/

inductive BAction where
  | getOrg
  | getSessionAssets
  | createMsgs
  | queueMsgs
  | markSent
deriving DecidableEq

structure SendEnv where
  orgAssets : Except String Unit
  sessionAssets : Except String Unit
  createMsgs : Except String (List Nat)
  queueMsgs : Except String Unit
  markSentResult : Except String Unit

/-- The deferred block: append the mark-sent invocation when the batch is
the last one. -/
def deferMark (isLast : Bool) (tr : List BAction) : List BAction :=
  tr ++ if isLast then [BAction.markSent] else []

/-- SendBroadcastBatch: returns the result reported to the caller and the
trace of operations that ran, the deferred mark-sent included. -/
def SendBroadcastBatch (isLast : Bool) (env : SendEnv) : Except String Unit × List BAction :=
  match env.orgAssets with
  | .error e => (.error ("error getting org assets: " ++ e), deferMark isLast [BAction.getOrg])
  | .ok _ =>
  match env.sessionAssets with
  | .error e =>
    (.error ("error getting session assets: " ++ e),
      deferMark isLast [BAction.getOrg, BAction.getSessionAssets])
  | .ok _ =>
  match env.createMsgs with
  | .error e =>
    (.error ("error creating broadcast messages: " ++ e),
      deferMark isLast [BAction.getOrg, BAction.getSessionAssets, BAction.createMsgs])
  | .ok _ =>
  match env.queueMsgs with
  | .error e =>
    (.error ("error queuing broadcast messages: " ++ e),
      deferMark isLast
        [BAction.getOrg, BAction.getSessionAssets, BAction.createMsgs, BAction.queueMsgs])
  | .ok _ =>
    (.ok (),
      deferMark isLast
        [BAction.getOrg, BAction.getSessionAssets, BAction.createMsgs, BAction.queueMsgs])

/-- True exactly when an Except value is the ok case. -/
def exceptOk {α : Type} : Except String α → Bool
  | .ok _ => true
  | .error _ => false

/- Helper lemmas about the list embeddings of the Go sets and maps. -/

theorem insertAll_cons (acc : List ContactID) (x : ContactID) (xs : List ContactID) :
    insertAll acc (x :: xs) = insertAll (if x ∈ acc then acc else acc ++ [x]) xs := rfl

theorem mem_insertAll (acc xs : List ContactID) (a : ContactID) :
    a ∈ insertAll acc xs ↔ a ∈ acc ∨ a ∈ xs := by
  induction xs generalizing acc with
  | nil => simp [insertAll]
  | cons x xs ih =>
    rw [insertAll_cons]
    by_cases hx : x ∈ acc
    · rw [if_pos hx, ih]
      constructor
      · rintro (h | h)
        · exact Or.inl h
        · exact Or.inr (List.mem_cons_of_mem _ h)
      · rintro (h | h)
        · exact Or.inl h
        · rcases List.mem_cons.mp h with h | h
          · exact Or.inl (h ▸ hx)
          · exact Or.inr h
    · rw [if_neg hx, ih]
      simp only [List.mem_append, List.mem_singleton, List.mem_cons]
      tauto

theorem nodup_insertAll (acc xs : List ContactID) (h : acc.Nodup) :
    (insertAll acc xs).Nodup := by
  induction xs generalizing acc with
  | nil => exact h
  | cons x xs ih =>
    rw [insertAll_cons]
    by_cases hx : x ∈ acc
    · rw [if_pos hx]; exact ih acc h
    · rw [if_neg hx]
      refine ih _ ?_
      rw [List.nodup_append]
      exact ⟨h, List.nodup_singleton x, by simpa using hx⟩

theorem keys_mapInsert (m : List (ContactID × URN)) (k : ContactID) (v : URN) :
    (mapInsert m k v).map Prod.fst =
      if k ∈ m.map Prod.fst then m.map Prod.fst else m.map Prod.fst ++ [k] := by
  unfold mapInsert
  by_cases h : k ∈ m.map Prod.fst
  · rw [if_pos h, if_pos h, List.map_map]
    refine List.map_congr_left ?_
    intro p _
    by_cases hp : p.1 = k
    · simp [hp]
    · simp [hp]
  · rw [if_neg h, if_neg h]
    simp

theorem mem_keys_mapInsert (m : List (ContactID × URN)) (k : ContactID) (v : URN)
    (a : ContactID) :
    a ∈ (mapInsert m k v).map Prod.fst ↔ a ∈ m.map Prod.fst ∨ a = k := by
  rw [keys_mapInsert]
  by_cases h : k ∈ m.map Prod.fst
  · rw [if_pos h]
    constructor
    · exact Or.inl
    · rintro (ha | rfl)
      · exact ha
      · exact h
  · rw [if_neg h]
    simp

theorem nodup_keys_mapInsert (m : List (ContactID × URN)) (k : ContactID) (v : URN)
    (h : (m.map Prod.fst).Nodup) : ((mapInsert m k v).map Prod.fst).Nodup := by
  rw [keys_mapInsert]
  by_cases hk : k ∈ m.map Prod.fst
  · rw [if_pos hk]; exact h
  · rw [if_neg hk]
    rw [List.nodup_append]
    exact ⟨h, List.nodup_singleton k, by simpa using hk⟩

theorem mapGet_isSome_of_mem (m : List (ContactID × URN)) (k : ContactID)
    (h : k ∈ m.map Prod.fst) : (mapGet m k).isSome = true := by
  induction m with
  | nil => simp at h
  | cons p m ih =>
    by_cases hp : p.1 = k
    · have hb : (p.1 == k) = true := by simpa using hp
      unfold mapGet
      rw [List.find?_cons, hb]
      rfl
    · have hb : (p.1 == k) = false := by simpa using hp
      have hk : k ∈ m.map Prod.fst := by
        rcases List.mem_cons.mp h with h | h
        · exact absurd h.symm hp
        · exact h
      unfold mapGet at ih ⊢
      rw [List.find?_cons, hb]
      exact ih hk

theorem resolveOverlap_nil (cids : List ContactID) (rep uc : List (ContactID × URN)) :
    resolveOverlap [] cids rep uc = (cids, rep, uc) := rfl

theorem resolveOverlap_cons (u : URN) (id : ContactID) (rest : List (URN × ContactID))
    (cids : List ContactID) (rep uc : List (ContactID × URN)) :
    resolveOverlap ((u, id) :: rest) cids rep uc =
      if id ∈ cids then
        resolveOverlap rest (cids.erase id) (mapInsert rep id u) (mapInsert uc id u)
      else
        resolveOverlap rest cids rep (mapInsert uc id u) := rfl

/-- Once a contact has been moved out of the contact id set into the
repeated and urn maps, the rest of the urn loop keeps it there. -/
theorem resolveOverlap_persist (id : ContactID) (urnMap : List (URN × ContactID)) :
    ∀ (cids : List ContactID) (rep uc : List (ContactID × URN)),
      id ∉ cids → id ∈ rep.map Prod.fst → id ∈ uc.map Prod.fst →
      id ∉ (resolveOverlap urnMap cids rep uc).1 ∧
      id ∈ (resolveOverlap urnMap cids rep uc).2.1.map Prod.fst ∧
      id ∈ (resolveOverlap urnMap cids rep uc).2.2.map Prod.fst := by
  induction urnMap with
  | nil => intro cids rep uc h1 h2 h3; exact ⟨h1, h2, h3⟩
  | cons p rest ih =>
    intro cids rep uc h1 h2 h3
    obtain ⟨u0, id0⟩ := p
    rw [resolveOverlap_cons]
    by_cases hmem : id0 ∈ cids
    · rw [if_pos hmem]
      refine ih _ _ _ ?_ ?_ ?_
      · intro hc; exact h1 (List.mem_of_mem_erase hc)
      · exact (mem_keys_mapInsert _ _ _ _).mpr (Or.inl h2)
      · exact (mem_keys_mapInsert _ _ _ _).mpr (Or.inl h3)
    · rw [if_neg hmem]
      exact ih _ _ _ h1 h2 ((mem_keys_mapInsert _ _ _ _).mpr (Or.inl h3))

/-- A contact reachable through the contact id set that also appears in
the urn map ends the urn loop outside the contact id set and inside both
the repeated and urn maps. -/
theorem resolveOverlap_reach (id : ContactID) (u : URN) (urnMap : List (URN × ContactID)) :
    ∀ (cids : List ContactID) (rep uc : List (ContactID × URN)),
      cids.Nodup → (u, id) ∈ urnMap →
      (id ∈ cids ∨ (id ∉ cids ∧ id ∈ rep.map Prod.fst ∧ id ∈ uc.map Prod.fst)) →
      id ∉ (resolveOverlap urnMap cids rep uc).1 ∧
      id ∈ (resolveOverlap urnMap cids rep uc).2.1.map Prod.fst ∧
      id ∈ (resolveOverlap urnMap cids rep uc).2.2.map Prod.fst := by
  induction urnMap with
  | nil => intro cids rep uc _ habs _; simp at habs
  | cons p rest ih =>
    intro cids rep uc hnd hin hinv
    obtain ⟨u0, id0⟩ := p
    rw [resolveOverlap_cons]
    by_cases hmem : id0 ∈ cids
    · rw [if_pos hmem]
      rcases List.mem_cons.mp hin with heq | hrest
      · have hu0 : u0 = u := congrArg Prod.fst heq.symm
        have hid0 : id0 = id := congrArg Prod.snd heq.symm
        subst hu0; subst hid0
        refine resolveOverlap_persist _ _ _ _ _ ?_ ?_ ?_
        · intro hc
          exact ((List.Nodup.mem_erase_iff hnd).mp hc).1 rfl
        · exact (mem_keys_mapInsert _ _ _ _).mpr (Or.inr rfl)
        · exact (mem_keys_mapInsert _ _ _ _).mpr (Or.inr rfl)
      · refine ih _ _ _ (hnd.erase id0) hrest ?_
        rcases hinv with hc | ⟨hnc, hr, hu⟩
        · by_cases hii : id = id0
          · subst hii
            refine Or.inr ⟨?_, ?_, ?_⟩
            · intro habs
              exact ((List.Nodup.mem_erase_iff hnd).mp habs).1 rfl
            · exact (mem_keys_mapInsert _ _ _ _).mpr (Or.inr rfl)
            · exact (mem_keys_mapInsert _ _ _ _).mpr (Or.inr rfl)
          · exact Or.inl ((List.mem_erase_of_ne hii).mpr hc)
        · refine Or.inr ⟨?_, ?_, ?_⟩
          · intro habs; exact hnc (List.mem_of_mem_erase habs)
          · exact (mem_keys_mapInsert _ _ _ _).mpr (Or.inl hr)
          · exact (mem_keys_mapInsert _ _ _ _).mpr (Or.inl hu)
    · rw [if_neg hmem]
      rcases List.mem_cons.mp hin with heq | hrest
      · have hu0 : u0 = u := congrArg Prod.fst heq.symm
        have hid0 : id0 = id := congrArg Prod.snd heq.symm
        subst hu0; subst hid0
        rcases hinv with hc | ⟨hnc, hr, hu⟩
        · exact absurd hc hmem
        · exact resolveOverlap_persist _ _ _ _ _ hnc hr
            ((mem_keys_mapInsert _ _ _ _).mpr (Or.inl hu))
      · refine ih _ _ _ hnd hrest ?_
        rcases hinv with hc | ⟨hnc, hr, hu⟩
        · exact Or.inl hc
        · exact Or.inr ⟨hnc, hr, (mem_keys_mapInsert _ _ _ _).mpr (Or.inl hu)⟩

/-- The urn loop keeps the keys of the repeated-contacts map free of
duplicates. -/
theorem resolveOverlap_rep_nodup (urnMap : List (URN × ContactID)) :
    ∀ (cids : List ContactID) (rep uc : List (ContactID × URN)),
      (rep.map Prod.fst).Nodup →
      ((resolveOverlap urnMap cids rep uc).2.1.map Prod.fst).Nodup := by
  induction urnMap with
  | nil => intro cids rep uc h; exact h
  | cons p rest ih =>
    intro cids rep uc h
    obtain ⟨u0, id0⟩ := p
    rw [resolveOverlap_cons]
    by_cases hmem : id0 ∈ cids
    · rw [if_pos hmem]; exact ih _ _ _ (nodup_keys_mapInsert _ _ _ h)
    · rw [if_neg hmem]; exact ih _ _ _ h

theorem buildBatches_nil (rep uc : List (ContactID × URN)) (cur : List ContactID) :
    buildBatches rep uc [] cur = [⟨cur ++ rep.map Prod.fst, true, uc⟩] := rfl

theorem buildBatches_cons (rep uc : List (ContactID × URN)) (c : ContactID)
    (rest cur : List ContactID) :
    buildBatches rep uc (c :: rest) cur =
      if cur.length = startBatchSize then
        ⟨cur, false, []⟩ :: buildBatches rep uc rest [c]
      else
        buildBatches rep uc rest (cur ++ [c]) := rfl

/-- Shape of the batching loop output: some full non-last batches without
a urn map, then exactly one final batch carrying the leftover contacts,
the repeated contacts and the urn map, emitted even when the leftover is
empty. -/
theorem buildBatches_shape (rep uc : List (ContactID × URN)) (rem : List ContactID) :
    ∀ (cur : List ContactID), cur.length ≤ startBatchSize →
    ∃ front leftover,
      buildBatches rep uc rem cur = front ++ [⟨leftover ++ rep.map Prod.fst, true, uc⟩] ∧
      (∀ b ∈ front, b.IsLast = false ∧ b.URNs = [] ∧
        b.ContactIDs.length = startBatchSize ∧ ∀ x ∈ b.ContactIDs, x ∈ cur ++ rem) ∧
      (∀ x ∈ leftover, x ∈ cur ++ rem) ∧ leftover.length ≤ startBatchSize := by
  induction rem with
  | nil =>
    intro cur h
    refine ⟨[], cur, ?_, by simp, by simp, h⟩
    rw [buildBatches_nil]
    simp
  | cons c rest ih =>
    intro cur h
    rw [buildBatches_cons]
    by_cases hfull : cur.length = startBatchSize
    · rw [if_pos hfull]
      obtain ⟨front, leftover, heq, hfront, hleft, hlen⟩ := ih [c] (by
        simp [startBatchSize])
      refine ⟨⟨cur, false, []⟩ :: front, leftover, by simp [heq], ?_, ?_, hlen⟩
      · intro b hb
        rcases List.mem_cons.mp hb with rfl | hb
        · exact ⟨rfl, rfl, hfull, fun x hx => List.mem_append.mpr (Or.inl hx)⟩
        · obtain ⟨h1, h2, h3, h4⟩ := hfront b hb
          refine ⟨h1, h2, h3, fun x hx => ?_⟩
          have hm := h4 x hx
          simp only [List.mem_append, List.mem_singleton, List.mem_cons] at hm ⊢
          tauto
      · intro x hx
        have hm := hleft x hx
        simp only [List.mem_append, List.mem_singleton, List.mem_cons] at hm ⊢
        tauto
    · rw [if_neg hfull]
      obtain ⟨front, leftover, heq, hfront, hleft, hlen⟩ := ih (cur ++ [c]) (by
        rw [List.length_append, List.length_singleton]
        unfold startBatchSize at hfull h ⊢
        omega)
      refine ⟨front, leftover, heq, ?_, ?_, hlen⟩
      · intro b hb
        obtain ⟨h1, h2, h3, h4⟩ := hfront b hb
        refine ⟨h1, h2, h3, fun x hx => ?_⟩
        have hm := h4 x hx
        simp only [List.mem_append, List.mem_singleton, List.mem_cons] at hm ⊢
        tauto
      · intro x hx
        have hm := hleft x hx
        simp only [List.mem_append, List.mem_singleton, List.mem_cons] at hm ⊢
        tauto

/-- Unfolding of CreateBroadcastBatches when org assets, session assets
and urn resolution all succeed. -/
theorem CreateBroadcastBatches_ok (explicitIDs groupContactIDs : List ContactID)
    (gerr aerr : Option String) (urnMap : List (URN × ContactID)) :
    CreateBroadcastBatches explicitIDs groupContactIDs gerr (.ok ()) (.ok ()) (.ok urnMap)
        aerr =
      .ok ((buildBatches
          (resolveOverlap urnMap (insertAll (insertAll [] explicitIDs) groupContactIDs) [] []).2.1
          (resolveOverlap urnMap (insertAll (insertAll [] explicitIDs) groupContactIDs) [] []).2.2
          (resolveOverlap urnMap (insertAll (insertAll [] explicitIDs) groupContactIDs) [] []).1
          []).map (fun b =>
            ⟨if (insertAll (insertAll [] explicitIDs) groupContactIDs).length ≤ 2 then
                QueueName.handlerQ
              else QueueName.batchQ, b⟩)) := rfl

/-- Unfolding of ScheduleForTime once the rounding and offset portion is
known to succeed. -/
theorem ScheduleForTime_ok (e : CampaignEvent) (tz : Int) (now start s : GoTime)
    (h : schedulePreClamp e tz start = .ok s) :
    ScheduleForTime e tz now start =
      if (if e.DeliveryHour ≠ NilDeliveryHour then dateAtHour s.dayIndex e.DeliveryHour tz
          else s).Before now then
        .ok none
      else
        .ok (some (if e.DeliveryHour ≠ NilDeliveryHour then
          dateAtHour s.dayIndex e.DeliveryHour tz else s)) := by
  unfold ScheduleForTime
  rw [h]

/-- C1 (amended): every batch emitted by CreateBroadcastBatches is
enqueued on the low-latency handler queue when the deduplicated set of
explicit and group-expanded contact ids has at most two members, and on
the bulk batch queue otherwise; the count is taken before the urn overlap
removal, and address-resolved recipients play no part in the choice. -/
theorem C1_queue_selection (explicitIDs groupContactIDs : List ContactID)
    (gerr aerr : Option String) (urnMap : List (URN × ContactID)) (ts : List QueuedTask)
    (hres : CreateBroadcastBatches explicitIDs groupContactIDs gerr (.ok ()) (.ok ())
      (.ok urnMap) aerr = .ok ts) :
    ∀ t ∈ ts, t.queue =
      if (insertAll (insertAll [] explicitIDs) groupContactIDs).length ≤ 2 then
        QueueName.handlerQ
      else QueueName.batchQ := by
  rw [CreateBroadcastBatches_ok] at hres
  injection hres with hts
  subst hts
  intro t ht
  simp only [List.mem_map] at ht
  obtain ⟨b, hb, rfl⟩ := ht
  rfl

/-- C1 witness: a broadcast of three explicit contacts routes its batch to
the bulk batch queue. -/
theorem C1_queue_selection_witness :
    QueuedTask.queue ⟨QueueName.batchQ, ⟨[1, 2, 3], true, []⟩⟩ =
      if (insertAll (insertAll [] [1, 2, 3]) []).length ≤ 2 then QueueName.handlerQ
      else QueueName.batchQ :=
  C1_queue_selection [1, 2, 3] [] none none [] [⟨QueueName.batchQ, ⟨[1, 2, 3], true, []⟩⟩]
    rfl ⟨QueueName.batchQ, ⟨[1, 2, 3], true, []⟩⟩ (by simp)

/-- C1 counterexample: a broadcast whose three recipients are all resolved
from explicit addresses has a total resolved recipient count of three, yet
its batch is enqueued on the low-latency handler queue, not the bulk batch
queue: the source counts only explicit and group contacts at the queue
decision. -/
theorem C1_counterexample :
    totalResolvedRecipients [] [] [("tel:1", 1), ("tel:2", 2), ("tel:3", 3)] = 3 ∧
    CreateBroadcastBatches [] [] none (.ok ()) (.ok ())
        (.ok [("tel:1", 1), ("tel:2", 2), ("tel:3", 3)]) none =
      .ok [⟨QueueName.handlerQ, ⟨[], true, [(1, "tel:1"), (2, "tel:2"), (3, "tel:3")]⟩⟩] :=
  ⟨rfl, rfl⟩

/-- C3: on an input whose group expansion reports an error and whose task
enqueue reports an error, CreateBroadcastBatches still returns ok: the
group resolution error of line 54 is never examined and the AddTask error
of line 116 is logged and dropped, so both failures are swallowed rather
than returned to the caller. -/
theorem C3_swallowed_errors :
    CreateBroadcastBatches [] [] (some ("error resolving group contact ids")) (.ok ())
        (.ok ()) (.ok []) (some ("error queuing broadcast batch")) =
      .ok [⟨QueueName.handlerQ, ⟨[], true, []⟩⟩] := rfl

/-- C2 (amended): ScheduleForTime returns no fire exactly when the
computed instant (after rounding, offset and delivery-hour clamp) is
strictly before now; an instant exactly equal to now is returned as a
fire. -/
theorem C2_no_fire_iff (e : CampaignEvent) (tz : Int) (now start s : GoTime)
    (h : schedulePreClamp e tz start = .ok s) :
    (ScheduleForTime e tz now start = .ok none ↔
      (if e.DeliveryHour ≠ NilDeliveryHour then dateAtHour s.dayIndex e.DeliveryHour tz
       else s).nsec < now.nsec) := by
  rw [ScheduleForTime_ok e tz now start s h]
  by_cases hb : (if e.DeliveryHour ≠ NilDeliveryHour then
      dateAtHour s.dayIndex e.DeliveryHour tz else s).nsec < now.nsec
  · simp [GoTime.Before, hb]
  · simp [GoTime.Before, hb]

/-- C2 witness: a one-minute offset from the epoch is strictly before a
now one day later, so the result is no fire. -/
theorem C2_no_fire_iff_witness :
    ScheduleForTime ⟨1, OffsetMinute, NilDeliveryHour⟩ 0 ⟨nsPerDay, 0⟩ ⟨0, 0⟩ = .ok none :=
  (C2_no_fire_iff ⟨1, OffsetMinute, NilDeliveryHour⟩ 0 ⟨nsPerDay, 0⟩ ⟨0, 0⟩ ⟨nsPerMin, 0⟩
    rfl).mpr (by decide)

/-- C2 counterexample: with offset zero in minutes and a start equal to
now on an exact minute boundary, the computed instant equals now, which is
not strictly after now, yet ScheduleForTime returns a fire rather than no
fire: the source only skips instants strictly before now. -/
theorem C2_counterexample :
    schedulePreClamp ⟨0, OffsetMinute, NilDeliveryHour⟩ 0 ⟨0, 0⟩ = .ok ⟨0, 0⟩ ∧
    ScheduleForTime ⟨0, OffsetMinute, NilDeliveryHour⟩ 0 ⟨0, 0⟩ ⟨0, 0⟩ = .ok (some ⟨0, 0⟩) :=
  ⟨rfl, rfl⟩

/-- The rounding step of the source (add sixty seconds, truncate to the
minute, guarded by a nonzero seconds or sub-second component) computes
exactly the round-up-to-next-whole-minute of the spec. -/
theorem roundUp_code_eq_spec (t : GoTime) :
    (if 0 < t.Second ∨ 0 < t.Nanosecond then (t.Add (60 * nsPerSec)).Truncate nsPerMin
     else t) = specRoundUpToMinute t := by
  unfold specRoundUpToMinute
  by_cases h : 0 < t.Second ∨ 0 < t.Nanosecond
  · rw [if_pos h, if_pos h]
    unfold GoTime.Add GoTime.Truncate
    have hmk : t.nsec + 60 * nsPerSec - (t.nsec + 60 * nsPerSec) % nsPerMin =
        t.nsec - t.nsec % nsPerMin + nsPerMin := by
      have h60 : nsPerMin = 60000000000 := by norm_num [nsPerMin, nsPerSec]
      have hs : (60 : Int) * nsPerSec = 60000000000 := by norm_num [nsPerSec]
      rw [h60, hs]
      omega
    rw [hmk]
  · rw [if_neg h, if_neg h]

/-- For a recognized offset unit, the rounding and offset portion of
ScheduleForTime equals the spec formula: round the start (converted to the
campaign timezone) up to the next whole minute, then apply the offset in
its unit. -/
theorem schedulePreClamp_eq_spec (e : CampaignEvent) (tz : Int) (start : GoTime)
    (hu : e.Unit = OffsetMinute ∨ e.Unit = OffsetHour ∨ e.Unit = OffsetDay ∨
      e.Unit = OffsetWeek) :
    schedulePreClamp e tz start =
      .ok (specApplyOffset e (specRoundUpToMinute (start.In tz))) := by
  simp only [schedulePreClamp, specApplyOffset]
  rw [roundUp_code_eq_spec]
  rcases hu with h | h | h | h <;> rw [h] <;>
    simp [OffsetMinute, OffsetHour, OffsetDay, OffsetWeek]

/-- C4: for a campaign event with no delivery hour and a recognized offset
unit, and a computed instant not strictly before now, ScheduleForTime
fires at exactly roundUpToMinute(start in tz) plus the offset in its unit
(minutes, hours, offset calendar days, or offset times seven calendar
days), where the round-up advances to the next whole minute only when the
start has a nonzero seconds or sub-second component. -/
theorem C4_offset_formula (e : CampaignEvent) (tz : Int) (now start : GoTime)
    (hdh : e.DeliveryHour = NilDeliveryHour)
    (hu : e.Unit = OffsetMinute ∨ e.Unit = OffsetHour ∨ e.Unit = OffsetDay ∨
      e.Unit = OffsetWeek)
    (hnow : (specApplyOffset e (specRoundUpToMinute (start.In tz))).Before now = false) :
    ScheduleForTime e tz now start =
      .ok (some (specApplyOffset e (specRoundUpToMinute (start.In tz)))) := by
  rw [ScheduleForTime_ok e tz now start _ (schedulePreClamp_eq_spec e tz start hu)]
  rw [hdh]
  simp [hnow]

/-- C4 witness: the literal case of the spec, start 2024-06-01T10:00:30Z
with unit hour and offset one in UTC, fires at 2024-06-01T11:01:00Z. -/
theorem C4_offset_formula_witness :
    ScheduleForTime ⟨1, OffsetHour, NilDeliveryHour⟩ 0 ⟨0, 0⟩ ⟨1717236030 * nsPerSec, 0⟩ =
      .ok (some (specApplyOffset ⟨1, OffsetHour, NilDeliveryHour⟩
        (specRoundUpToMinute (GoTime.In ⟨1717236030 * nsPerSec, 0⟩ 0)))) ∧
    specApplyOffset ⟨1, OffsetHour, NilDeliveryHour⟩
        (specRoundUpToMinute (GoTime.In ⟨1717236030 * nsPerSec, 0⟩ 0)) =
      ⟨1717239660 * nsPerSec, 0⟩ :=
  ⟨C4_offset_formula ⟨1, OffsetHour, NilDeliveryHour⟩ 0 ⟨0, 0⟩ ⟨1717236030 * nsPerSec, 0⟩
    rfl (Or.inr (Or.inl rfl)) (by decide), by decide⟩

/-- C9 (amended): for a campaign event whose delivery hour h lies in the
clock range 0 to 23, any fire returned by ScheduleForTime has hour h, zero
minutes, seconds and sub-seconds, and the same calendar date in the
campaign timezone as the pre-clamp instant produced by the rounding and
offset steps. -/
theorem C9_delivery_hour (e : CampaignEvent) (tz : Int) (now start s t : GoTime) (h : Int)
    (hdh : e.DeliveryHour = h) (h0 : 0 ≤ h) (h23 : h ≤ 23)
    (hs : schedulePreClamp e tz start = .ok s)
    (ht : ScheduleForTime e tz now start = .ok (some t)) :
    t.Hour = h ∧ t.Minute = 0 ∧ t.Second = 0 ∧ t.Nanosecond = 0 ∧ t.dayIndex = s.dayIndex := by
  rw [ScheduleForTime_ok e tz now start s hs] at ht
  have hne : e.DeliveryHour ≠ NilDeliveryHour := by
    rw [hdh]
    unfold NilDeliveryHour
    omega
  rw [if_pos hne] at ht
  split at ht
  · exact absurd ht (by simp)
  · have hteq : dateAtHour s.dayIndex e.DeliveryHour tz = t := by
      injection ht with h1
      injection h1
    subst hteq
    rw [hdh]
    refine ⟨?_, ?_, ?_, ?_, ?_⟩ <;>
      simp only [dateAtHour, GoTime.Hour, GoTime.Minute, GoTime.Second, GoTime.Nanosecond,
        GoTime.dayIndex, GoTime.wallNsec, nsPerDay, nsPerHour, nsPerMin, nsPerSec] <;>
      omega

/-- C9 witness: the literal case of the spec, start 2024-01-01T15:30:00Z
in UTC with unit day, offset two and delivery hour nine, fires at
2024-01-03T09:00:00Z: hour nine, zero minutes, seconds and sub-seconds,
on the calendar date of the pre-clamp instant 2024-01-03T15:30:00Z. -/
theorem C9_delivery_hour_witness :
    GoTime.Hour ⟨1704272400 * nsPerSec, 0⟩ = 9 ∧
    GoTime.Minute ⟨1704272400 * nsPerSec, 0⟩ = 0 ∧
    GoTime.Second ⟨1704272400 * nsPerSec, 0⟩ = 0 ∧
    GoTime.Nanosecond ⟨1704272400 * nsPerSec, 0⟩ = 0 ∧
    GoTime.dayIndex ⟨1704272400 * nsPerSec, 0⟩ = GoTime.dayIndex ⟨1704295800 * nsPerSec, 0⟩ :=
  C9_delivery_hour ⟨2, OffsetDay, 9⟩ 0 ⟨0, 0⟩ ⟨1704123000 * nsPerSec, 0⟩
    ⟨1704295800 * nsPerSec, 0⟩ ⟨1704272400 * nsPerSec, 0⟩ 9 rfl (by decide) (by decide)
    rfl rfl

/-- C9 counterexample: a set delivery hour of 24 (not the unset sentinel
of minus one) is normalized into the next calendar day at hour zero, so
the returned hour is 0, not 24, and the calendar date is not the pre-clamp
date: the claim holds only for delivery hours 0 to 23. -/
theorem C9_counterexample :
    (24 : Int) ≠ NilDeliveryHour ∧
    schedulePreClamp ⟨0, OffsetMinute, 24⟩ 0 ⟨0, 0⟩ = .ok ⟨0, 0⟩ ∧
    ScheduleForTime ⟨0, OffsetMinute, 24⟩ 0 ⟨0, 0⟩ ⟨0, 0⟩ =
      .ok (some ⟨86400 * nsPerSec, 0⟩) ∧
    GoTime.Hour ⟨86400 * nsPerSec, 0⟩ = 0 ∧
    GoTime.dayIndex ⟨86400 * nsPerSec, 0⟩ ≠ GoTime.dayIndex ⟨0, 0⟩ :=
  ⟨by decide, rfl, rfl, rfl, by decide⟩

/-- C5: a contact id reachable both through the explicit or group contact
lists and through a resolved explicit address appears in no batch flagged
not-last, and appears exactly once in the contact list of the terminal
batch, whose contact-to-address map resolves it. -/
theorem C5_overlap (explicitIDs groupContactIDs : List ContactID) (gerr aerr : Option String)
    (urnMap : List (URN × ContactID)) (id : ContactID) (u : URN) (ts : List QueuedTask)
    (hres : CreateBroadcastBatches explicitIDs groupContactIDs gerr (.ok ()) (.ok ())
      (.ok urnMap) aerr = .ok ts)
    (hid : id ∈ explicitIDs ∨ id ∈ groupContactIDs)
    (hurn : (u, id) ∈ urnMap) :
    (∀ t ∈ ts, t.batch.IsLast = false → id ∉ t.batch.ContactIDs) ∧
    ∃ front lastT, ts = front ++ [lastT] ∧ lastT.batch.IsLast = true ∧
      lastT.batch.ContactIDs.count id = 1 ∧ (mapGet lastT.batch.URNs id).isSome = true := by
  rw [CreateBroadcastBatches_ok] at hres
  injection hres with hts
  subst hts
  have hSnd : (insertAll (insertAll [] explicitIDs) groupContactIDs).Nodup :=
    nodup_insertAll _ _ (nodup_insertAll _ _ List.nodup_nil)
  have hidS : id ∈ insertAll (insertAll [] explicitIDs) groupContactIDs := by
    rw [mem_insertAll, mem_insertAll]
    rcases hid with h | h
    · exact Or.inl (Or.inr h)
    · exact Or.inr h
  obtain ⟨hnc, hrep, huc⟩ :=
    resolveOverlap_reach id u urnMap (insertAll (insertAll [] explicitIDs) groupContactIDs)
      [] [] hSnd hurn (Or.inl hidS)
  have hrnd :=
    resolveOverlap_rep_nodup urnMap (insertAll (insertAll [] explicitIDs) groupContactIDs)
      [] [] (by simp)
  obtain ⟨front, leftover, heq, hfront, hleft, hlen⟩ :=
    buildBatches_shape
      (resolveOverlap urnMap (insertAll (insertAll [] explicitIDs) groupContactIDs) [] []).2.1
      (resolveOverlap urnMap (insertAll (insertAll [] explicitIDs) groupContactIDs) [] []).2.2
      (resolveOverlap urnMap (insertAll (insertAll [] explicitIDs) groupContactIDs) [] []).1
      [] (by simp [startBatchSize])
  rw [heq, List.map_append]
  constructor
  · intro t ht hlast
    rcases List.mem_append.mp ht with hf | hl
    · simp only [List.mem_map] at hf
      obtain ⟨b, hb, rfl⟩ := hf
      obtain ⟨_, _, _, hsub⟩ := hfront b hb
      intro habs
      have hmem := hsub id habs
      rw [List.nil_append] at hmem
      exact hnc hmem
    · simp only [List.map_cons, List.map_nil, List.mem_singleton] at hl
      subst hl
      simp at hlast
  · refine ⟨_, _, rfl, rfl, ?_, ?_⟩
    · show (leftover ++ _).count id = 1
      rw [List.count_append]
      have hl0 : leftover.count id = 0 := by
        refine List.count_eq_zero_of_not_mem ?_
        intro habs
        have hmem := hleft id habs
        rw [List.nil_append] at hmem
        exact hnc hmem
      rw [hl0, List.count_eq_one_of_mem hrnd hrep]
    · exact mapGet_isSome_of_mem _ _ huc

/-- C5 witness: a broadcast with explicit contact 7 and an address
resolving to contact 7 defers that contact to the terminal batch, where it
appears once with its address. -/
theorem C5_overlap_witness :
    (∀ t ∈ [(⟨QueueName.handlerQ, ⟨[7], true, [(7, "tel:7")]⟩⟩ : QueuedTask)],
      t.batch.IsLast = false → 7 ∉ t.batch.ContactIDs) ∧
    ∃ front lastT,
      [(⟨QueueName.handlerQ, ⟨[7], true, [(7, "tel:7")]⟩⟩ : QueuedTask)] = front ++ [lastT] ∧
      lastT.batch.IsLast = true ∧ lastT.batch.ContactIDs.count 7 = 1 ∧
      (mapGet lastT.batch.URNs 7).isSome = true :=
  C5_overlap [7] [] none none [("tel:7", 7)] 7 ("tel:7")
    [⟨QueueName.handlerQ, ⟨[7], true, [(7, "tel:7")]⟩⟩] rfl (Or.inl (by simp)) (by simp)

/-- C6: CreateBroadcastBatches partitions the deduplicated non-repeated
recipients into batches of at most startBatchSize contacts (the non-final
ones exactly full), with exactly one batch flagged last, the final one,
which carries the repeated contacts, the address map and any remainder and
is emitted even when the remainder is empty; and for 250 distinct contacts
with no address overlap the result is exactly three batches of sizes 100,
100 and 50, only the third flagged last. -/
theorem C6_partition :
    (∀ (explicitIDs groupContactIDs : List ContactID) (gerr aerr : Option String)
        (urnMap : List (URN × ContactID)) (ts : List QueuedTask),
      CreateBroadcastBatches explicitIDs groupContactIDs gerr (.ok ()) (.ok ()) (.ok urnMap)
          aerr = .ok ts →
      ∃ front lastT leftover, ts = front ++ [lastT] ∧
        (∀ t ∈ front, t.batch.IsLast = false ∧
          t.batch.ContactIDs.length = startBatchSize ∧ t.batch.URNs = []) ∧
        lastT.batch.IsLast = true ∧
        lastT.batch.ContactIDs = leftover ++
          (resolveOverlap urnMap (insertAll (insertAll [] explicitIDs) groupContactIDs)
            [] []).2.1.map Prod.fst ∧
        leftover.length ≤ startBatchSize ∧
        lastT.batch.URNs =
          (resolveOverlap urnMap (insertAll (insertAll [] explicitIDs) groupContactIDs)
            [] []).2.2) ∧
    (CreateBroadcastBatches (List.range 250) [] none (.ok ()) (.ok ()) (.ok []) none).map
        (List.map fun t => (t.batch.ContactIDs.length, t.batch.IsLast)) =
      .ok [(100, false), (100, false), (50, true)] := by
  constructor
  · intro explicitIDs groupContactIDs gerr aerr urnMap ts hres
    rw [CreateBroadcastBatches_ok] at hres
    injection hres with hts
    subst hts
    obtain ⟨front, leftover, heq, hfront, hleft, hlen⟩ :=
      buildBatches_shape
        (resolveOverlap urnMap (insertAll (insertAll [] explicitIDs) groupContactIDs)
          [] []).2.1
        (resolveOverlap urnMap (insertAll (insertAll [] explicitIDs) groupContactIDs)
          [] []).2.2
        (resolveOverlap urnMap (insertAll (insertAll [] explicitIDs) groupContactIDs)
          [] []).1
        [] (by simp [startBatchSize])
    rw [heq, List.map_append]
    refine ⟨_, _, leftover, rfl, ?_, rfl, rfl, hlen, rfl⟩
    intro t ht
    simp only [List.mem_map] at ht
    obtain ⟨b, hb, rfl⟩ := ht
    obtain ⟨h1, h2, h3, _⟩ := hfront b hb
    exact ⟨h1, h3, h2⟩
  · set_option maxRecDepth 20000 in rfl

/-- C6 witness: a single-contact broadcast produces exactly the terminal
batch, carrying that contact as the remainder and an empty address map. -/
theorem C6_partition_witness :
    ∃ front lastT leftover,
      [(⟨QueueName.handlerQ, ⟨[5], true, []⟩⟩ : QueuedTask)] = front ++ [lastT] ∧
      (∀ t ∈ front, t.batch.IsLast = false ∧
        t.batch.ContactIDs.length = startBatchSize ∧ t.batch.URNs = []) ∧
      lastT.batch.IsLast = true ∧
      lastT.batch.ContactIDs = leftover ++
        (resolveOverlap [] (insertAll (insertAll [] [5]) []) [] []).2.1.map Prod.fst ∧
      leftover.length ≤ startBatchSize ∧
      lastT.batch.URNs = (resolveOverlap [] (insertAll (insertAll [] [5]) []) [] []).2.2 :=
  C6_partition.1 [5] [] none none [] [⟨QueueName.handlerQ, ⟨[5], true, []⟩⟩] rfl

theorem Apply_cons (s : Session) (es : List FlowEvent)
    (rest : List (Session × List FlowEvent)) :
    Apply ((s, es) :: rest) =
      match es.getLast? with
      | none => none
      | some ev =>
        match ev with
        | .contactLanguageChanged l =>
          match Apply rest with
          | none => none
          | some more => some (⟨s.contactID, l⟩ :: more)
        | .other _ => none := by
  cases hl : es.getLast? with
  | none => simp [Apply, hl]
  | some ev => cases ev <;> simp [Apply, hl]

/-- C7: whenever the language-change hook commits, it produces exactly one
update row per session entry, and row i pairs the contact of session i
with the language of the LAST event that session accumulated. -/
theorem C7_last_wins (sessions : List (Session × List FlowEvent)) (ups : List languageUpdate)
    (h : Apply sessions = some ups) :
    ups.length = sessions.length ∧
    ∀ i (hi : i < sessions.length), ∃ (hu : i < ups.length) (l : String),
      lastLanguage (sessions.get ⟨i, hi⟩).2 = some l ∧
      ups.get ⟨i, hu⟩ = ⟨(sessions.get ⟨i, hi⟩).1.contactID, l⟩ := by
  induction sessions generalizing ups with
  | nil =>
    simp only [Apply] at h
    injection h with h
    subst h
    exact ⟨rfl, fun i hi => absurd hi (by simp)⟩
  | cons p rest ih =>
    obtain ⟨s, es⟩ := p
    rw [Apply_cons] at h
    cases hl : es.getLast? with
    | none => rw [hl] at h; simp at h
    | some ev =>
      rw [hl] at h
      cases ev with
      | other k => simp at h
      | contactLanguageChanged l =>
        cases hr : Apply rest with
        | none => rw [hr] at h; simp at h
        | some more =>
          rw [hr] at h
          simp only at h
          injection h with h
          subst h
          obtain ⟨hlen, hall⟩ := ih more hr
          refine ⟨by simp [hlen], ?_⟩
          intro i hi
          cases i with
          | zero =>
            refine ⟨by simp, l, ?_, rfl⟩
            simp [lastLanguage, hl]
          | succ n =>
            have hn : n < rest.length := by simpa using hi
            obtain ⟨hu, l2, hlast, hget⟩ := hall n hn
            exact ⟨by simpa using hu, l2, hlast, hget⟩

/-- C7 witness: one session accumulating language events A, B, C yields
exactly one update row, carrying value C. -/
theorem C7_last_wins_witness :
    ([(⟨7, "C"⟩ : languageUpdate)]).length =
      ([((⟨1, 7⟩ : Session),
        [FlowEvent.contactLanguageChanged ("A"), FlowEvent.contactLanguageChanged ("B"),
          FlowEvent.contactLanguageChanged ("C")])]).length ∧
    ∀ i (hi : i < ([((⟨1, 7⟩ : Session),
        [FlowEvent.contactLanguageChanged ("A"), FlowEvent.contactLanguageChanged ("B"),
          FlowEvent.contactLanguageChanged ("C")])]).length),
      ∃ (hu : i < ([(⟨7, "C"⟩ : languageUpdate)]).length) (l : String),
        lastLanguage (([((⟨1, 7⟩ : Session),
          [FlowEvent.contactLanguageChanged ("A"), FlowEvent.contactLanguageChanged ("B"),
            FlowEvent.contactLanguageChanged ("C")])]).get ⟨i, hi⟩).2 = some l ∧
        ([(⟨7, "C"⟩ : languageUpdate)]).get ⟨i, hu⟩ =
          ⟨(([((⟨1, 7⟩ : Session),
            [FlowEvent.contactLanguageChanged ("A"), FlowEvent.contactLanguageChanged ("B"),
              FlowEvent.contactLanguageChanged ("C")])]).get ⟨i, hi⟩).1.contactID, l⟩ :=
  C7_last_wins _ _ rfl

/-- C10: under the precondition that every session entry carries a
non-empty event list ending in a contact-language-changed event, the hook
commits (no fault is reachable); an empty event list, or a final event of
another kind, makes Apply fault instead of returning an error. -/
theorem C10_apply_precondition :
    (∀ sessions : List (Session × List FlowEvent),
      (∀ p ∈ sessions, (lastLanguage p.2).isSome = true) →
      (Apply sessions).isSome = true) ∧
    Apply [(⟨1, 7⟩, [])] = none ∧
    Apply [(⟨1, 7⟩, [FlowEvent.other ("contact_name_changed")])] = none := by
  refine ⟨?_, rfl, rfl⟩
  intro sessions
  induction sessions with
  | nil => intro _; simp [Apply]
  | cons p rest ih =>
    intro hpre
    obtain ⟨s, es⟩ := p
    have hp : (lastLanguage es).isSome = true := hpre (s, es) (by simp)
    have hrest : (Apply rest).isSome = true :=
      ih (fun q hq => hpre q (List.mem_cons_of_mem _ hq))
    rw [Apply_cons]
    unfold lastLanguage at hp
    cases hl : es.getLast? with
    | none => rw [hl] at hp; simp at hp
    | some ev =>
      rw [hl] at hp
      cases ev with
      | other k => simp at hp
      | contactLanguageChanged l =>
        cases hr : Apply rest with
        | none => rw [hr] at hrest; simp at hrest
        | some more => simp [hr]

/-- C10 witness: a session whose single event is a language change
satisfies the precondition, and the hook commits on it. -/
theorem C10_apply_precondition_witness :
    (Apply [(⟨1, 7⟩, [FlowEvent.contactLanguageChanged ("eng")])]).isSome = true :=
  C10_apply_precondition.1 [(⟨1, 7⟩, [FlowEvent.contactLanguageChanged ("eng")])] (by decide)

/-- C8: SendBroadcastBatch runs the deferred mark-broadcast-sent step on
every exit path exactly when the batch is flagged last, org-asset,
message-creation and courier-queue failures included, and it reports ok to
the caller exactly when every fallible step succeeded. -/
theorem C8_mark_sent (isLast : Bool) (env : SendEnv) :
    (BAction.markSent ∈ (SendBroadcastBatch isLast env).2 ↔ isLast = true) ∧
    ((SendBroadcastBatch isLast env).1 = .ok () ↔
      exceptOk env.orgAssets = true ∧ exceptOk env.sessionAssets = true ∧
      exceptOk env.createMsgs = true ∧ exceptOk env.queueMsgs = true) := by
  obtain ⟨o, sa, cm, qm, mk⟩ := env
  cases o <;> cases sa <;> cases cm <;> cases qm <;> cases isLast <;>
    simp [SendBroadcastBatch, deferMark, exceptOk]
